import Mathlib

/-!
Verification of the supervisor core of the jbsays repository.

The Python sources embedded here (shallowly, as pure Lean functions) are:
* `telegram_multiproject_inbox_bot.py`: `ProcessedFilesTracker`,
  `RetryQueue.add_retry`, `MultiProjectInboxWatcher.on_created`,
  `MultiProjectInboxWatcher.process_event`,
  `MultiProjectInboxWatcher.send_telegram_message_safe`,
  `MultiProjectInboxWatcher.split_message`, `retry_worker`.
* `telegram_project_manager_bot.py`: `ProjectManager._get_container_info_sync`,
  `ProjectManager.get_project_status` (state derivation),
  `ProjectManager.__init__` (thread pool), `ProjectManagerBot.monitor_temp_container`.

Strings from the Python side are modelled as `String` where only equality
matters and as `List Char` where the code slices and concatenates them.
-/

/-! ## Dedup store (`ProcessedFilesTracker`) -/

/-- One value of the per-project processed-files JSON map: the record stored
under a file key by `mark_file_processed`.  `hash` is `Option` because
`_get_file_hash` returns `None` when the file cannot be read. -/
structure ProcessedRecord where
  hash : Option String
  processedAt : String
  fileSize : Nat
deriving DecidableEq

/-- The per-project processed-files JSON map, as an association list
(first binding wins, like a dict rebuilt by updates shadowing old keys). -/
def ProcessedFiles := List (String × ProcessedRecord)

/-- The composite key built by both trackers:
the Python expression is the string interpolation of name, an underscore
and the mtime (`file_key` in `is_file_processed` and `mark_file_processed`). -/
def mkFileKey (name mtime : String) : String :=
  name ++ "_" ++ mtime

/-- `ProcessedFilesTracker.is_file_processed` (identical in
`telegram_multiproject_inbox_bot.py` lines 125-134 and
`telegram_project_manager_bot.py` lines 510-519): look the key up; if present,
processed iff the stored hash equals the current hash; otherwise not
processed. -/
def is_file_processed (pf : ProcessedFiles) (name mtime : String)
    (curHash : Option String) : Bool :=
  match List.lookup (mkFileKey name mtime) pf with
  | some r => r.hash == curHash
  | none => false

/-- `ProcessedFilesTracker.mark_file_processed`: store the record under the
key (dict assignment; modelled by a shadowing cons). -/
def mark_file_processed (pf : ProcessedFiles) (name mtime : String)
    (curHash : Option String) (now : String) (size : Nat) : ProcessedFiles :=
  (mkFileKey name mtime, ⟨curHash, now, size⟩) :: pf

/-! ## Container introspection and derived lifecycle state -/

/-- The fields of the dict returned by
`ProjectManager._get_container_info_sync` that the state derivation in
`get_project_status` reads.  When `exists_` is false the Python dict carries
no other keys and the derivation returns before reading them, so the values
of the remaining fields are irrelevant there; they default to the values
used below. -/
structure ContainerInfo where
  exists_ : Bool
  running : Bool
  paused : Bool
  exitCode : Option Int
deriving DecidableEq

/-- How the `docker inspect` call in `_get_container_info_sync` went. -/
inductive InspectOutcome
  | failure
  | nonzero
  | ok (running paused : Bool) (exitCode : Int)
deriving DecidableEq

/-- `ProjectManager._get_container_info_sync` (lines 119-162): any exception
(including the subprocess timeout) and any non-zero `docker inspect` exit
both yield a dict with only `exists: False`; success yields the state
fields. -/
def get_container_info (o : InspectOutcome) : ContainerInfo :=
  match o with
  | .failure => ⟨false, false, false, none⟩
  | .nonzero => ⟨false, false, false, none⟩
  | .ok r p ec => ⟨true, r, p, some ec⟩

/-- The normalized lifecycle states of `get_project_status`. -/
inductive DerivedState
  | not_started
  | running
  | paused
  | stopped
  | completed
deriving DecidableEq

/-- The state derivation in `ProjectManager.get_project_status`
(lines 209-219): the if/elif chain over the introspection dict, with
`exit_code` read through `.get("exit_code", 1)`. -/
def derive_state (info : ContainerInfo) : DerivedState :=
  if !info.exists_ then .not_started
  else if info.paused then .paused
  else if info.running then .running
  else if info.exitCode.getD 1 == 0 then .completed
  else .stopped

/-- Follows the spec words (claim C2), as the ordered case table they spell
out: not exists is not_started; exists and paused is paused; exists, running
and not paused is running; exists, not running with exit code zero is
completed; exists, not running with exit code non-zero or unknown is
stopped. -/
def spec_derived_state (e r p : Bool) (ec : Option Int) : DerivedState :=
  if e = false then .not_started
  else if p = true then .paused
  else if r = true then .running
  else if ec = some 0 then .completed
  else .stopped

/-! ## Message splitting (`MultiProjectInboxWatcher.split_message`) -/

/-- The characters Python `str.rstrip()` removes (the ASCII whitespace
characters; the message text handled here is built from them and printable
characters). -/
def pySpace (c : Char) : Bool :=
  c = ' ' || c = '\t' || c = '\n' || c = '\r' ||
    c = Char.ofNat 11 || c = Char.ofNat 12

/-- Python `str.rstrip()`: drop trailing whitespace. -/
def rstrip (l : List Char) : List Char :=
  (l.reverse.dropWhile pySpace).reverse

/-- Python `message.split(<newline>)`: split at every newline, keeping empty
segments, so that the result always has one more segment than the text has
newlines. -/
def pySplitNL : List Char → List (List Char)
  | [] => [[]]
  | c :: cs =>
    if c = '\n' then [] :: pySplitNL cs
    else
      match pySplitNL cs with
      | [] => [[c]]
      | l :: ls => (c :: l) :: ls

/-- The `while len(line) > max_length` loop of `split_message`: slice leading
4096-character pieces off an over-long line; returns the pieces and the
remainder of length at most 4096. -/
def chopLong (l : List Char) : List (List Char) × List Char :=
  if _h : 4096 < l.length then
    let r := chopLong (l.drop 4096)
    (l.take 4096 :: r.1, r.2)
  else ([], l)
termination_by l.length
decreasing_by simp [List.length_drop]; omega

/-- The `for line in lines` loop of `split_message` (lines 461-476), with the
accumulated `current_part` as second argument and the final
`if current_part: parts.append(current_part.rstrip())` folded into the base
case. -/
def split_core : List (List Char) → List Char → List (List Char)
  | [], cur => if cur = [] then [] else [rstrip cur]
  | l :: ls, cur =>
    if cur.length + l.length + 1 ≤ 4096 then
      split_core ls (cur ++ l ++ ['\n'])
    else if cur = [] then
      (chopLong l).1 ++ split_core ls ((chopLong l).2 ++ ['\n'])
    else
      rstrip cur :: split_core ls (l ++ ['\n'])

/-- `MultiProjectInboxWatcher.split_message` (lines 451-478). -/
def split_message (msg : List Char) : List (List Char) :=
  if msg.length ≤ 4096 then [msg] else split_core (pySplitNL msg) []

/-- The sequence of texts `send_telegram_message_safe` (lines 401-423) passes
to `bot.send_message`, in the order of the `for i, part in enumerate(parts)`
loop: the whole message when it fits, otherwise the chunks of
`split_message` in list order. -/
def send_sequence (msg : List Char) : List (List Char) :=
  if msg.length ≤ 4096 then [msg] else split_message msg

/-- Joining split segments with the newlines that `split(<newline>)`
removed; inverse of `pySplitNL`. -/
def joinNL : List (List Char) → List Char
  | [] => []
  | l :: ls => l ++ nlJoin ls
where
  /-- The tail segments, each preceded by its separating newline. -/
  nlJoin : List (List Char) → List Char
  | [] => []
  | l :: ls => '\n' :: (l ++ nlJoin ls)

/-- Counterexample message for the concatenation claim: two 4000-character
lines separated by a newline (8001 characters in total). -/
def msgTwoLines : List Char :=
  List.replicate 4000 'a' ++ '\n' :: List.replicate 4000 'b'

/-- Failing message for the chunk-size claim: a one-character line, a
newline, then a single 4097-character line (4099 characters in total, so the
splitting path is taken). -/
def msgLongLine : List Char :=
  'a' :: '\n' :: List.replicate 4097 'b'

/-! ## Notification delivery and the retry queue -/

/-- The serializable part of the `message_data` dict that delivery and the
retry queue care about: which file the notification is for and the
`retry_count` field. -/
structure MsgData where
  fileKey : String
  retryCount : Nat
deriving DecidableEq

/-- The persisted shared state touched by delivery: the processed-files
marks (dedup store) and the retry queue in FIFO order. -/
structure BotState where
  processed : List String
  queue : List MsgData
deriving DecidableEq

/-- The log lines the delivery pipeline can emit that record its decisions:
the success log, the generic send-error log, the added-to-retry-queue log of
`send_telegram_message_safe`, and the max-retries-exceeded log of
`retry_worker`. -/
inductive LogEvent
  | sentOk
  | sendError
  | addedRetry
  | maxRetriesExceeded
deriving DecidableEq

/-- `RetryQueue.add_retry` (lines 188-200): enqueue the message at the back
with `retry_count` set to its previous value plus one. -/
def add_retry (st : BotState) (m : MsgData) : BotState :=
  { st with queue := st.queue ++ [{ m with retryCount := m.retryCount + 1 }] }

/-- `MultiProjectInboxWatcher.send_telegram_message_safe` (lines 381-449)
with the channel outcome `ok` made explicit: on success mark the file
processed; on failure log the error and, only when `retry_count < 3`,
re-enqueue with the count incremented (and log that); at the cap the item is
simply not re-enqueued. -/
def send_message_safe (st : BotState) (m : MsgData) (ok : Bool) :
    BotState × List LogEvent :=
  if ok then
    ({ st with processed := m.fileKey :: st.processed }, [.sentOk])
  else if m.retryCount < 3 then
    (add_retry st m, [.sendError, .addedRetry])
  else
    (st, [.sendError])

/-- One pass of `retry_worker` (lines 1193-1215): dequeue one item (removed
from the queue by `get_retry`); when its `retry_count` is at most 3, copy the
count into the message and redeliver through `send_telegram_message_safe`;
otherwise only log that the maximum was exceeded. -/
def retry_worker_step (st : BotState) (ok : Bool) : BotState × List LogEvent :=
  match st.queue with
  | [] => (st, [])
  | item :: rest =>
    if item.retryCount ≤ 3 then
      send_message_safe { st with queue := rest } item ok
    else
      ({ st with queue := rest }, [.maxRetriesExceeded])

/-- Iterate `retry_worker_step` with every delivery failing, collecting the
logs of each pass. -/
def run_failures (st : BotState) : Nat → BotState × List LogEvent
  | 0 => (st, [])
  | n + 1 =>
    let r := retry_worker_step st false
    let r2 := run_failures r.1 n
    (r2.1, r.2 ++ r2.2)

/-- The states reachable by the pipeline from a fresh start: initial sends
and fallback enqueues carry `retry_count` 0, redrives go through
`retry_worker_step`. -/
inductive ReachableState : BotState → Prop
  | init : ReachableState ⟨[], []⟩
  | fresh (st : BotState) (m : MsgData) (ok : Bool) :
      ReachableState st → m.retryCount = 0 →
      ReachableState (send_message_safe st m ok).1
  | fallback (st : BotState) (m : MsgData) :
      ReachableState st → m.retryCount = 0 →
      ReachableState (add_retry st m)
  | worker (st : BotState) (ok : Bool) :
      ReachableState st → ReachableState (retry_worker_step st ok).1

/-! ## Ephemeral container monitoring (`monitor_temp_container`) -/

/-- What one iteration of the polling loop in
`ProjectManagerBot.monitor_temp_container` (lines 1327-1423) observes: the
`self.running` shutdown flag found cleared, the container seen absent or no
longer running, the container still running, or an exception escaping the
body of the outer `try`. -/
inductive MEvent
  | shutdown
  | stoppedObs
  | runningObs
  | exc
deriving DecidableEq

/-- How a monitoring run ended. -/
inductive MOutcome
  | completedRun
  | timeoutRun
  | errorRun
  | shutdownRun
deriving DecidableEq

/-- The docker commands the monitor issues through
`project_manager.execute_command` for cleanup. -/
inductive DockerCmd
  | stopCmd
  | rmCmd
  | rmForce
deriving DecidableEq

/-- `ProjectManagerBot.monitor_temp_container` as a function of the observed
events and of the number of polls the `max_wait` deadline still allows.  Per
iteration the code first consults the shutdown flag (`break` with no
cleanup), then the container info (stopped: send the result and
`docker rm`, then `break`); an exception reaches the outer `except`, whose
inner `finally` runs `docker rm -f`.  An exhausted deadline takes the
`while`-`else` branch: `docker stop` then `docker rm`, outcome timeout.
An exhausted event list stands for a container that keeps running. -/
def monitor_temp (evs : List MEvent) (fuel : Nat) : MOutcome × List DockerCmd :=
  match fuel with
  | 0 => (.timeoutRun, [.stopCmd, .rmCmd])
  | fuel' + 1 =>
    match evs with
    | [] => monitor_temp [] fuel'
    | e :: rest =>
      match e with
      | .shutdown => (.shutdownRun, [])
      | .stoppedObs => (.completedRun, [.rmCmd])
      | .exc => (.errorRun, [.rmForce])
      | .runningObs => monitor_temp rest fuel'

/-- Whether a cleanup command removing the container was issued. -/
def has_remove (cs : List DockerCmd) : Bool :=
  cs.contains .rmCmd || cs.contains .rmForce

/-! ## Event attribution (`MultiProjectInboxWatcher.process_event`) -/

/-- One entry of `config.projects`, in dict (insertion) order: name, the
project root path and the enabled flag. -/
structure ProjectCfg where
  name : String
  path : List Char
  enabled : Bool
deriving DecidableEq

/-- The watched directory of a project: its path joined with
`inbox/to_human`. -/
def inbox_dir (p : ProjectCfg) : List Char :=
  p.path ++ ("/inbox/to_human").toList

/-- Python substring membership `needle in hay` on strings. -/
def str_contains : List Char → List Char → Bool
  | needle, [] => needle.isEmpty
  | needle, c :: t => needle.isPrefixOf (c :: t) || str_contains needle t

/-- The extension filter of `on_created`: `event.src_path.endswith(".md")`. -/
def ends_with_md (path : List Char) : Bool :=
  (".md").toList.isSuffixOf path

/-- The attribution loop of `process_event` (lines 296-307): walk the
projects in dict order, skip disabled ones, and take the first whose inbox
directory occurs inside the event path (the loop breaks there); no match
means the event is dropped. -/
def find_project (projects : List ProjectCfg) (eventPath : List Char) :
    Option ProjectCfg :=
  match projects with
  | [] => none
  | p :: ps =>
    if p.enabled && str_contains (inbox_dir p) eventPath then some p
    else find_project ps eventPath

/-- `MultiProjectInboxWatcher.on_created` (lines 275-282) followed by the
attribution of `process_event`: directory events and files without the `.md`
extension are ignored, everything else is attributed (or dropped). -/
def on_created (projects : List ProjectCfg) (isDir : Bool)
    (eventPath : List Char) : Option ProjectCfg :=
  if !isDir && ends_with_md eventPath then find_project projects eventPath
  else none

/-- Concrete configuration for the attribution counterexample: one enabled
project named p rooted at the path `/p`. -/
def cfgOneProject : List ProjectCfg :=
  [⟨"p", ("/p").toList, true⟩]

/-- An event path that contains the inbox directory of project p as a proper
substring without lying under it. -/
def evOutside : List Char := ("/x/p/inbox/to_human/f.md").toList

/-- An event path directly inside the inbox directory of project p. -/
def evInside : List Char := ("/p/inbox/to_human/f.md").toList

/-! ## Lifecycle command execution (`ProjectManager.execute_command`) -/

/-- One lifecycle-mutating command run through
`ProjectManager.execute_command`: the project it addresses, its execution
interval on a pool thread, and which of the five pool workers ran it
(`ThreadPoolExecutor(max_workers=5)` in `ProjectManager.__init__`,
lines 96-104; the class holds no lock and `execute_command`, lines 372-382,
submits directly to the pool). -/
structure CmdJob where
  proj : String
  tstart : Nat
  tend : Nat
  worker : Fin 5
deriving DecidableEq

/-- Two jobs overlap in time (half-open execution intervals intersect). -/
def jobs_overlap (j k : CmdJob) : Bool :=
  decide (j.tstart < k.tend) && decide (k.tstart < j.tend)

/-- Pairwise check over a list, in order. -/
def pairwiseB (r : CmdJob → CmdJob → Bool) : List CmdJob → Bool
  | [] => true
  | j :: js => js.all (r j) && pairwiseB r js

/-- The schedules the code admits: each pool worker is a single thread, so
two jobs on the same worker never overlap; nothing else constrains the
schedule, because `ProjectManager` holds no lock. -/
def pool_schedule (jobs : List CmdJob) : Bool :=
  pairwiseB (fun j k => !(j.worker == k.worker) || !(jobs_overlap j k)) jobs

/-- The property the claim asserts: two lifecycle commands for the same
project never overlap. -/
def serialized_per_project (jobs : List CmdJob) : Bool :=
  pairwiseB (fun j k => !(j.proj == k.proj) || !(jobs_overlap j k)) jobs

/-- The jobs executing at instant `t`. -/
def active_at (jobs : List CmdJob) (t : Nat) : List CmdJob :=
  jobs.filter (fun j => decide (j.tstart ≤ t) && decide (t < j.tend))

/-- A pool schedule in which two commands for the same project overlap:
both run during instant 1, on different workers. -/
def jobsSameProject : List CmdJob :=
  [⟨"p", 0, 2, 0⟩, ⟨"p", 1, 3, 1⟩]

/-! ## Theorems -/

/-- C1: the dedup check reports a file as processed iff a record exists
under its `(name, mtime)` key whose stored fingerprint equals the current
one; equivalently the file is treated as new iff no record exists for the
key or the stored fingerprint differs. -/
theorem c1_dedup_check (pf : ProcessedFiles) (name mtime : String)
    (curHash : Option String) :
    (is_file_processed pf name mtime curHash = true ↔
      ∃ r, List.lookup (mkFileKey name mtime) pf = some r ∧ r.hash = curHash)
    ∧ (is_file_processed pf name mtime curHash = false ↔
      (List.lookup (mkFileKey name mtime) pf = none ∨
        ∃ r, List.lookup (mkFileKey name mtime) pf = some r ∧ r.hash ≠ curHash)) := by
  cases hl : List.lookup (mkFileKey name mtime) pf with
  | none => simp [is_file_processed, hl]
  | some r =>
      constructor
      · simp [is_file_processed, hl]
      · simp [is_file_processed, hl]

/-- C2: the derived lifecycle state is exactly the pure function of the raw
introspection fields given by the case analysis of the spec. -/
theorem c2_derived_state (info : ContainerInfo) :
    derive_state info =
      spec_derived_state info.exists_ info.running info.paused info.exitCode := by
  obtain ⟨e, r, p, ec⟩ := info
  cases e <;> cases r <;> cases p <;> ·
    cases ec with
    | none => simp [derive_state, spec_derived_state]
    | some n =>
        by_cases hn : n = 0 <;>
          simp [derive_state, spec_derived_state, hn]

/-- C10: a failed, non-zero or timed-out introspection call yields the very
same record as a container that does not exist, and the derived status is
`not_started` in all three situations, so a transient introspection error is
indistinguishable at the status interface from an absent container. -/
theorem c10_error_is_not_started :
    get_container_info .failure = get_container_info .nonzero
    ∧ (get_container_info .failure).exists_ = false
    ∧ derive_state (get_container_info .failure) = .not_started
    ∧ derive_state (get_container_info .nonzero) = .not_started := by
  refine ⟨rfl, rfl, rfl, rfl⟩

/-- Delivery never emits the max-retries log line: that line belongs to
`retry_worker` alone. -/
theorem send_message_safe_no_terminal (st : BotState) (m : MsgData) (ok : Bool) :
    LogEvent.maxRetriesExceeded ∉ (send_message_safe st m ok).2 := by
  unfold send_message_safe
  by_cases hok : ok <;> by_cases hc : m.retryCount < 3 <;> simp [hok, hc]

/-- Invariant of the pipeline: every queued item carries a retry count
between 1 and 3, because `add_retry` increments and
`send_telegram_message_safe` only re-enqueues below the cap. -/
theorem reachable_queue_counts (st : BotState) (h : ReachableState st) :
    ∀ m ∈ st.queue, 1 ≤ m.retryCount ∧ m.retryCount ≤ 3 := by
  induction h with
  | init => intro m hm; simp at hm
  | fresh st m ok _hst h0 ih =>
      intro x hx
      unfold send_message_safe at hx
      by_cases hok : ok
      · simp [hok] at hx
        exact ih x hx
      · have hlt : m.retryCount < 3 := by omega
        simp [hok, hlt, add_retry] at hx
        rcases hx with hx | hx
        · exact ih x hx
        · subst hx; simp [h0]
  | fallback st m _hst h0 ih =>
      intro x hx
      simp [add_retry] at hx
      rcases hx with hx | hx
      · exact ih x hx
      · subst hx; simp [h0]
  | worker st ok _hst ih =>
      intro x hx
      unfold retry_worker_step at hx
      cases hq : st.queue with
      | nil => simp [hq] at hx
      | cons item rest =>
          have hitem := ih item (by simp [hq])
          have hrest : ∀ y ∈ rest, 1 ≤ y.retryCount ∧ y.retryCount ≤ 3 := by
            intro y hy; exact ih y (by simp [hq, hy])
          simp only [hq] at hx
          by_cases hcap : item.retryCount ≤ 3
          · rw [if_pos hcap] at hx
            unfold send_message_safe at hx
            by_cases hok : ok
            · simp [hok] at hx
              exact hrest x hx
            · by_cases hlt : item.retryCount < 3
              · simp [hok, hlt, add_retry] at hx
                rcases hx with hx | hx
                · exact hrest x hx
                · subst hx
                  show 1 ≤ item.retryCount + 1 ∧ item.retryCount + 1 ≤ 3
                  omega
              · simp [hok, hlt] at hx
                exact hrest x hx
          · rw [if_neg hcap] at hx
            simp at hx
            exact hrest x hx

/-- In every reachable state a redrive pass never reaches the branch that
logs the max-retries-exceeded record: the dedicated terminal log of
`retry_worker` is dead code under the pipeline's own enqueue discipline. -/
theorem worker_terminal_log_unreachable (st : BotState) (ok : Bool)
    (h : ReachableState st) :
    LogEvent.maxRetriesExceeded ∉ (retry_worker_step st ok).2 := by
  cases hq : st.queue with
  | nil => simp [retry_worker_step, hq]
  | cons item rest =>
      have hitem := reachable_queue_counts st h item (by simp [hq])
      simp only [retry_worker_step, hq]
      rw [if_pos hitem.2]
      exact send_message_safe_no_terminal _ _ _

/-- C3: a notification that fails its initial send and then every redrive is
dropped after the attempt with retry count 3 — the queue is empty, the file
is never marked — yet the run of log records contains only generic send
errors and added-to-queue lines, never the max-retries-exceeded terminal
record: the drop happens silently inside `send_telegram_message_safe`. -/
theorem c3_silent_drop :
    (run_failures (send_message_safe ⟨[], []⟩ ⟨"f", 0⟩ false).1 3).1 = ⟨[], []⟩
    ∧ (send_message_safe ⟨[], []⟩ ⟨"f", 0⟩ false).2
        ++ (run_failures (send_message_safe ⟨[], []⟩ ⟨"f", 0⟩ false).1 3).2
      = [.sendError, .addedRetry, .sendError, .addedRetry,
         .sendError, .addedRetry, .sendError]
    ∧ LogEvent.maxRetriesExceeded ∉
        (send_message_safe ⟨[], []⟩ ⟨"f", 0⟩ false).2
          ++ (run_failures (send_message_safe ⟨[], []⟩ ⟨"f", 0⟩ false).1 3).2 := by
  decide

/-- C6 counterexample: a send failure at retry count 3 leaves the whole
state unchanged — in particular the message is not re-enqueued with its
attempt count incremented, contrary to the claim's unconditional
"on any send failure ... enqueued". -/
theorem c6_counterexample :
    (send_message_safe ⟨[], []⟩ ⟨"k", 3⟩ false).1 = ⟨[], []⟩
    ∧ (send_message_safe ⟨[], []⟩ ⟨"k", 3⟩ false).1.queue ≠ [⟨"k", 4⟩] := by
  decide

/-- C6 as amended: the file is marked seen iff the channel send succeeded;
on failure the dedup store is untouched and the message is re-enqueued with
its attempt count incremented exactly when the count is still below the
maximum of 3, while at the cap the state is left entirely unchanged. -/
theorem c6_mark_iff_success (st : BotState) (m : MsgData) (ok : Bool)
    (hnew : m.fileKey ∉ st.processed) :
    (m.fileKey ∈ (send_message_safe st m ok).1.processed ↔ ok = true)
    ∧ (ok = false → (send_message_safe st m ok).1.processed = st.processed)
    ∧ (ok = true → (send_message_safe st m ok).1.queue = st.queue)
    ∧ (ok = false → m.retryCount < 3 →
        (send_message_safe st m ok).1.queue
          = st.queue ++ [⟨m.fileKey, m.retryCount + 1⟩])
    ∧ (ok = false → 3 ≤ m.retryCount → (send_message_safe st m ok).1 = st) := by
  by_cases hok : ok <;> by_cases hc : m.retryCount < 3 <;>
    simp [send_message_safe, add_retry, hok, hc, hnew]

/-- Witness for `c6_mark_iff_success` at a concrete failing send below the
cap. -/
theorem c6_mark_iff_success_witness :
    ("k" ∉ ([] : List String))
    ∧ (send_message_safe ⟨[], []⟩ ⟨"k", 1⟩ false).1.queue = [⟨"k", 2⟩] := by
  refine ⟨by simp, ?_⟩
  have h := c6_mark_iff_success ⟨[], []⟩ ⟨"k", 1⟩ false (by simp)
  simpa using h.2.2.2.1 rfl (by decide)

/-- C7 counterexample: a monitoring run that ends because the bot is
shutting down (`if not self.running: break`) issues no docker command at
all — the ephemeral container is left behind, so monitoring can end without
the container being removed. -/
theorem c7_counterexample :
    monitor_temp [MEvent.shutdown] 5 = (.shutdownRun, [])
    ∧ has_remove (monitor_temp [MEvent.shutdown] 5).2 = false := by
  decide

/-- C7 as amended: on every exit path other than the bot-shutdown break the
container is removed (plain completion removes it, an exception removes it
forcibly, and reaching the `max_wait` deadline first stops and then removes
it, reporting timeout); the shutdown break alone performs no cleanup. -/
theorem c7_cleanup (evs : List MEvent) (fuel : Nat) :
    ((monitor_temp evs fuel).1 ≠ .shutdownRun →
      has_remove (monitor_temp evs fuel).2 = true)
    ∧ ((monitor_temp evs fuel).1 = .timeoutRun →
      (monitor_temp evs fuel).2 = [.stopCmd, .rmCmd])
    ∧ ((monitor_temp evs fuel).1 = .shutdownRun →
      (monitor_temp evs fuel).2 = []) := by
  induction fuel generalizing evs with
  | zero => simp [monitor_temp, has_remove]
  | succ n ih =>
      cases evs with
      | nil => simpa [monitor_temp] using ih []
      | cons e rest =>
          cases e with
          | shutdown => simp [monitor_temp, has_remove]
          | stoppedObs => simp [monitor_temp, has_remove]
          | exc => simp [monitor_temp, has_remove]
          | runningObs => simpa [monitor_temp] using ih rest

/-- Witness for `c7_cleanup`: a run that observes the container stop is
followed by a removal, and an exhausted deadline yields stop-then-remove. -/
theorem c7_cleanup_witness :
    has_remove (monitor_temp [MEvent.runningObs, MEvent.stoppedObs] 5).2 = true
    ∧ (monitor_temp ([] : List MEvent) 0).2 = [DockerCmd.stopCmd, DockerCmd.rmCmd] :=
  ⟨(c7_cleanup [MEvent.runningObs, MEvent.stoppedObs] 5).1 (by decide),
   (c7_cleanup [] 0).2.1 (by decide)⟩

/-- A successful `find_project` answer is an enabled project of the list
whose inbox directory occurs inside the event path. -/
theorem find_project_some (projects : List ProjectCfg) (path : List Char)
    (p : ProjectCfg) (h : find_project projects path = some p) :
    p.enabled = true ∧ str_contains (inbox_dir p) path = true ∧ p ∈ projects := by
  induction projects with
  | nil => simp [find_project] at h
  | cons q ps ih =>
      unfold find_project at h
      by_cases hq : (q.enabled && str_contains (inbox_dir q) path) = true
      · rw [if_pos hq] at h
        obtain ⟨h1, h2⟩ := Bool.and_eq_true_iff.mp hq
        cases h
        exact ⟨h1, h2, by simp⟩
      · rw [if_neg hq] at h
        obtain ⟨h1, h2, h3⟩ := ih h
        exact ⟨h1, h2, by simp [h3]⟩

/-- When no enabled project matches, `find_project` drops the event. -/
theorem find_project_none (projects : List ProjectCfg) (path : List Char)
    (h : ∀ q ∈ projects, q.enabled = true →
      str_contains (inbox_dir q) path = false) :
    find_project projects path = none := by
  induction projects with
  | nil => rfl
  | cons q ps ih =>
      unfold find_project
      have hq : (q.enabled && str_contains (inbox_dir q) path) = false := by
        by_cases he : q.enabled = true
        · simp [he, h q (by simp) he]
        · simp [Bool.eq_false_iff.mpr he]
      rw [hq]
      simp only [Bool.false_eq_true, if_false]
      exact ih (fun r hr => h r (by simp [hr]))

/-- C8 counterexample: with one enabled project rooted at `/p`, the file
creation event for `/x/p/inbox/to_human/f.md` is attributed to that project
(and hence notified) although no enabled project's inbox directory is a
path prefix of the event path — the code matches by substring, so under the
claim's prefix matching this event would have been dropped. -/
theorem c8_counterexample :
    (on_created cfgOneProject false evOutside).isSome = true
    ∧ cfgOneProject.all (fun p => !((inbox_dir p).isPrefixOf evOutside)) = true := by
  decide

/-- C8 as amended: a watcher file-creation event for a `.md` file is
attributed to at most one project — the first enabled one, in configuration
order, whose inbox directory occurs as a substring of the event path (for
event paths lying under a watched inbox this coincides with prefix
matching) — and an event matching no enabled project is dropped. -/
theorem c8_attribution (projects : List ProjectCfg) (isDir : Bool)
    (path : List Char) :
    (∀ p, on_created projects isDir path = some p →
      isDir = false ∧ ends_with_md path = true ∧ p.enabled = true
        ∧ str_contains (inbox_dir p) path = true ∧ p ∈ projects)
    ∧ ((∀ q ∈ projects, q.enabled = true →
          str_contains (inbox_dir q) path = false) →
        on_created projects isDir path = none) := by
  constructor
  · intro p hp
    cases isDir with
    | true => simp [on_created] at hp
    | false =>
        by_cases hmd : ends_with_md path = true
        · simp [on_created, hmd] at hp
          obtain ⟨h1, h2, h3⟩ := find_project_some projects path p hp
          exact ⟨rfl, hmd, h1, h2, h3⟩
        · simp [on_created, hmd] at hp
  · intro hnone
    unfold on_created
    by_cases hc : (!isDir && ends_with_md path) = true
    · rw [if_pos hc]
      exact find_project_none projects path hnone
    · rw [if_neg hc]

/-- Witness for `c8_attribution`: an event directly inside the inbox of the
enabled project p is attributed to it. -/
theorem c8_attribution_witness :
    (⟨"p", ("/p").toList, true⟩ : ProjectCfg).enabled = true
    ∧ str_contains (inbox_dir ⟨"p", ("/p").toList, true⟩) evInside = true
    ∧ (⟨"p", ("/p").toList, true⟩ : ProjectCfg) ∈ cfgOneProject := by
  have h := (c8_attribution cfgOneProject false evInside).1
    ⟨"p", ("/p").toList, true⟩ (by decide)
  exact ⟨h.2.2.1, h.2.2.2.1, h.2.2.2.2⟩

/-- The Bool pairwise check agrees with `List.Pairwise`. -/
theorem pairwiseB_iff (r : CmdJob → CmdJob → Bool) (l : List CmdJob) :
    pairwiseB r l = true ↔ l.Pairwise (fun a b => r a b = true) := by
  induction l with
  | nil => simp [pairwiseB]
  | cons j js ih =>
      simp [pairwiseB, List.all_eq_true, List.pairwise_cons, ih, and_comm]

/-- C9 counterexample: the schedules admitted by the code — any assignment
of command executions to the 5 pool workers with each worker serial —
include one in which two lifecycle commands for the same project overlap in
time, because `ProjectManager` holds no per-project lock; the claimed
per-project serialization therefore fails. -/
theorem c9_counterexample :
    pool_schedule jobsSameProject = true
    ∧ serialized_per_project jobsSameProject = false := by
  decide

/-- C9 as amended: the only concurrency bound the code enforces is the pool
size — in every admissible schedule at most 5 lifecycle commands execute at
any instant (each of the 5 single-threaded workers runs one at a time);
per-project serialization is not enforced. -/
theorem c9_pool_bound (jobs : List CmdJob) (hp : pool_schedule jobs = true)
    (t : Nat) : (active_at jobs t).length ≤ 5 := by
  have hpair := (pairwiseB_iff _ _).mp hp
  have hfilter :
      (active_at jobs t).Pairwise
        (fun a b => (!(a.worker == b.worker) || !(jobs_overlap a b)) = true) :=
    hpair.filter _
  have hactive : ∀ a ∈ active_at jobs t, a.tstart ≤ t ∧ t < a.tend := by
    intro a ha
    have := List.mem_filter.mp ha
    simpa using this.2
  have hne : (active_at jobs t).Pairwise (fun a b => a.worker ≠ b.worker) := by
    refine hfilter.imp_of_mem ?_
    intro a b ha hb hr
    have haa := hactive a ha
    have hbb := hactive b hb
    have hov : jobs_overlap a b = true := by
      simp only [jobs_overlap, Bool.and_eq_true, decide_eq_true_eq]
      omega
    rcases Bool.or_eq_true_iff.mp hr with hw | hw
    · intro heq
      rw [heq] at hw
      simp at hw
    · rw [hov] at hw
      simp at hw
  have hnodup : ((active_at jobs t).map CmdJob.worker).Nodup :=
    List.pairwise_map.mpr hne
  calc (active_at jobs t).length
      = ((active_at jobs t).map CmdJob.worker).length := (List.length_map _ _).symm
    _ ≤ Fintype.card (Fin 5) := hnodup.length_le_card
    _ = 5 := by simp

/-- Witness for `c9_pool_bound` at the concrete two-job schedule. -/
theorem c9_pool_bound_witness :
    pool_schedule jobsSameProject = true
    ∧ (active_at jobsSameProject 1).length ≤ 5 :=
  ⟨by decide, c9_pool_bound jobsSameProject (by decide) 1⟩

/-- Stripping only removes characters: the result is a sublist. -/
theorem rstrip_sublist (l : List Char) : (rstrip l).Sublist l := by
  have h := ((List.dropWhile_suffix (l := l.reverse) pySpace).sublist).reverse
  simpa [rstrip, List.reverse_reverse] using h

/-- Stripping swallows a trailing newline. -/
theorem rstrip_append_nl (l : List Char) : rstrip (l ++ ['\n']) = rstrip l := by
  unfold rstrip
  rw [List.reverse_append]
  simp [List.dropWhile_cons, show pySpace '\n' = true from rfl]

/-- A list with no whitespace characters is unchanged by stripping. -/
theorem rstrip_no_space (l : List Char) (h : ∀ c ∈ l, pySpace c = false) :
    rstrip l = l := by
  have hd : l.reverse.dropWhile pySpace = l.reverse := by
    cases hr : l.reverse with
    | nil => simp
    | cons a t =>
        have ha : pySpace a = false := by
          refine h a ?_
          rw [← List.mem_reverse, hr]
          simp
        simp [List.dropWhile_cons, ha]
  rw [rstrip, hd, List.reverse_reverse]

/-- Splitting always yields at least one segment. -/
theorem pySplitNL_ne_nil (l : List Char) : pySplitNL l ≠ [] := by
  cases l with
  | nil => simp [pySplitNL]
  | cons c cs =>
      unfold pySplitNL
      by_cases hc : c = '\n'
      · simp [hc]
      · cases pySplitNL cs <;> simp [hc]

/-- A newline-free text is one single segment. -/
theorem pySplitNL_no_nl (l : List Char) (h : '\n' ∉ l) : pySplitNL l = [l] := by
  induction l with
  | nil => rfl
  | cons c cs ih =>
      have hc : ¬ c = '\n' := fun hc => h (by simp [hc])
      have hcs : '\n' ∉ cs := fun hm => h (by simp [hm])
      unfold pySplitNL
      rw [if_neg hc, ih hcs]

/-- Splitting separates at the first newline. -/
theorem pySplitNL_append (l r : List Char) (h : '\n' ∉ l) :
    pySplitNL (l ++ '\n' :: r) = l :: pySplitNL r := by
  induction l with
  | nil => simp [pySplitNL]
  | cons c cs ih =>
      have hc : ¬ c = '\n' := fun hc => h (by simp [hc])
      have hcs : '\n' ∉ cs := fun hm => h (by simp [hm])
      have ihr := ih hcs
      simp only [List.cons_append]
      conv_lhs => simp only [pySplitNL]
      rw [if_neg hc, ihr]

/-- Rejoining the split segments with their newlines recovers the text. -/
theorem joinNL_pySplitNL (l : List Char) : joinNL (pySplitNL l) = l := by
  induction l with
  | nil => rfl
  | cons c cs ih =>
      unfold pySplitNL
      by_cases hc : c = '\n'
      · rw [if_pos hc]
        cases hsp : pySplitNL cs with
        | nil => exact absurd hsp (pySplitNL_ne_nil cs)
        | cons a as =>
            rw [hsp] at ih
            subst hc
            simp only [joinNL, joinNL.nlJoin, List.nil_append] at ih ⊢
            rw [ih]
      · rw [if_neg hc]
        cases hsp : pySplitNL cs with
        | nil => exact absurd hsp (pySplitNL_ne_nil cs)
        | cons a as =>
            rw [hsp] at ih
            simp only [joinNL, List.cons_append] at ih ⊢
            rw [ih]

/-- The pieces chopped off an over-long line concatenate back to it. -/
theorem chopLong_join (l : List Char) :
    (chopLong l).1.flatten ++ (chopLong l).2 = l := by
  unfold chopLong
  by_cases h : 4096 < l.length
  · rw [dif_pos h]
    have ih := chopLong_join (l.drop 4096)
    simp only [List.flatten_cons, List.append_assoc]
    rw [ih, List.take_append_drop]
  · rw [dif_neg h]
    simp
termination_by l.length
decreasing_by simp [List.length_drop]; omega

/-- Loop invariant of `split_message`: with the accumulated part ending in
its newline, the concatenation of all chunks still to be produced is a
sublist of the accumulated text followed by the remaining lines with their
newlines. -/
theorem split_core_flatten_sublist (ls : List (List Char)) (c : List Char) :
    (split_core ls (c ++ ['\n'])).flatten.Sublist (c ++ joinNL.nlJoin ls) := by
  induction ls generalizing c with
  | nil =>
      have hne : ¬ (c ++ ['\n'] = []) := by simp
      simp only [split_core, if_neg hne, joinNL.nlJoin, List.append_nil]
      rw [List.flatten_cons, List.flatten_nil, List.append_nil, rstrip_append_nl]
      exact rstrip_sublist c
  | cons l ls ih =>
      by_cases hfit : (c ++ ['\n']).length + l.length + 1 ≤ 4096
      · simp only [split_core]
        rw [if_pos hfit]
        have harr : c ++ ['\n'] ++ l ++ ['\n'] = (c ++ '\n' :: l) ++ ['\n'] := by simp
        rw [harr]
        have heq : (c ++ '\n' :: l) ++ joinNL.nlJoin ls
            = c ++ joinNL.nlJoin (l :: ls) := by
          simp [joinNL.nlJoin]
        rw [← heq]
        exact ih (c ++ '\n' :: l)
      · have hne : ¬ (c ++ ['\n'] = []) := by simp
        simp only [split_core]
        rw [if_neg hfit, if_neg hne]
        rw [List.flatten_cons, rstrip_append_nl]
        have h2 : (l ++ joinNL.nlJoin ls).Sublist ('\n' :: (l ++ joinNL.nlJoin ls)) :=
          List.sublist_cons_self _ _
        have h3 := (rstrip_sublist c).append ((ih l).trans h2)
        simpa [joinNL.nlJoin] using h3

/-- C4 as amended: concatenating the chunks of `split_message` yields a
sublist (subsequence) of the original message — the split never reorders or
invents characters — but the trailing whitespace stripped at each chunk
boundary (in particular the newline that separated the chunks) is lost, so
the concatenation does not in general reproduce the text. -/
theorem c4_flatten_sublist (msg : List Char) :
    (split_message msg).flatten.Sublist msg := by
  unfold split_message
  by_cases hlen : msg.length ≤ 4096
  · rw [if_pos hlen]
    simp
  · rw [if_neg hlen]
    cases hsp : pySplitNL msg with
    | nil => exact absurd hsp (pySplitNL_ne_nil msg)
    | cons l ls =>
        have hjoin : joinNL (l :: ls) = msg := by
          rw [← hsp, joinNL_pySplitNL]
        simp only [split_core]
        by_cases hfit : ([] : List Char).length + l.length + 1 ≤ 4096
        · rw [if_pos hfit]
          have h0 : ([] : List Char) ++ l ++ ['\n'] = l ++ ['\n'] := by simp
          rw [h0, ← hjoin]
          have := split_core_flatten_sublist ls l
          simpa [joinNL] using this
        · rw [if_neg hfit, if_true]
          rw [List.flatten_append]
          have h1 := split_core_flatten_sublist ls (chopLong l).2
          have h3 := (List.Sublist.refl (chopLong l).1.flatten).append h1
          rw [← hjoin]
          have h4 : (chopLong l).1.flatten ++ ((chopLong l).2 ++ joinNL.nlJoin ls)
              = joinNL (l :: ls) := by
            rw [← List.append_assoc, chopLong_join]
            simp [joinNL]
          rw [← h4]
          exact h3

/-- Unfolding equation of `split_core` on an empty line list. -/
theorem split_core_nil (cur : List Char) :
    split_core [] cur = if cur = [] then [] else [rstrip cur] := rfl

/-- Unfolding equation of `split_core` on a line. -/
theorem split_core_cons (l : List Char) (ls : List (List Char)) (cur : List Char) :
    split_core (l :: ls) cur =
      if cur.length + l.length + 1 ≤ 4096 then
        split_core ls (cur ++ l ++ ['\n'])
      else if cur = [] then
        (chopLong l).1 ++ split_core ls ((chopLong l).2 ++ ['\n'])
      else
        rstrip cur :: split_core ls (l ++ ['\n']) := rfl

/-- A run of a non-whitespace character is unchanged by stripping. -/
theorem rstrip_replicate (n : Nat) (c : Char) (h : pySpace c = false) :
    rstrip (List.replicate n c) = List.replicate n c := by
  refine rstrip_no_space _ ?_
  intro x hx
  rw [List.mem_replicate] at hx
  rw [hx.2]
  exact h

/-- A list extended by one character is never empty. -/
theorem append_singleton_ne_nil (l : List Char) (c : Char) : ¬ (l ++ [c] = []) := by
  intro h
  have hlen := congrArg List.length h
  rw [List.length_append, List.length_singleton, List.length_nil] at hlen
  omega

/-- Length of the two-line counterexample message. -/
theorem msgTwoLines_length : msgTwoLines.length = 8001 := by
  unfold msgTwoLines
  rw [List.length_append, List.length_cons, List.length_replicate,
    List.length_replicate]

/-- Length of the over-long-line message. -/
theorem msgLongLine_length : msgLongLine.length = 4099 := by
  unfold msgLongLine
  rw [List.length_cons, List.length_cons, List.length_replicate]

/-- The chunks `split_message` produces on the two-line counterexample
message: both lines, with the separating newline stripped away. -/
theorem split_message_msgTwoLines :
    split_message msgTwoLines
      = [List.replicate 4000 'a', List.replicate 4000 'b'] := by
  have hna : '\n' ∉ List.replicate 4000 'a' := by
    intro hm
    rw [List.mem_replicate] at hm
    exact absurd hm.2 (by decide)
  have hnb : '\n' ∉ List.replicate 4000 'b' := by
    intro hm
    rw [List.mem_replicate] at hm
    exact absurd hm.2 (by decide)
  have hsp : pySplitNL msgTwoLines
      = [List.replicate 4000 'a', List.replicate 4000 'b'] := by
    unfold msgTwoLines
    rw [pySplitNL_append _ _ hna, pySplitNL_no_nl _ hnb]
  have hlen : ¬ msgTwoLines.length ≤ 4096 := by
    have hl := msgTwoLines_length
    omega
  have hfit1 : ([] : List Char).length + (List.replicate 4000 'a').length + 1
      ≤ 4096 := by
    rw [List.length_nil, List.length_replicate]
    omega
  have hfit2 : ¬ ((List.replicate 4000 'a' ++ ['\n']).length
      + (List.replicate 4000 'b').length + 1 ≤ 4096) := by
    rw [List.length_append, List.length_singleton, List.length_replicate,
      List.length_replicate]
    omega
  unfold split_message
  rw [if_neg hlen, hsp, split_core_cons, if_pos hfit1, List.nil_append,
    split_core_cons, if_neg hfit2, if_neg (append_singleton_ne_nil _ _),
    rstrip_append_nl, rstrip_replicate 4000 'a' (by decide), split_core_nil,
    if_neg (append_singleton_ne_nil _ _), rstrip_append_nl,
    rstrip_replicate 4000 'b' (by decide)]

/-- C4 counterexample: on the 8001-character two-line message the
concatenation of the chunks has only 8000 characters — the newline between
the two chunks was stripped — so it does not reproduce the original text. -/
theorem c4_counterexample :
    (split_message msgTwoLines).flatten ≠ msgTwoLines := by
  intro h
  have hlen := congrArg List.length h
  rw [split_message_msgTwoLines, List.flatten_cons, List.flatten_cons,
    List.flatten_nil, List.append_nil, List.length_append,
    List.length_replicate, List.length_replicate, msgTwoLines_length] at hlen
  omega

/-- The chunks `split_message` produces on the over-long-line message: the
one-character first line, then the 4097-character line kept whole. -/
theorem split_message_msgLongLine :
    split_message msgLongLine = [['a'], List.replicate 4097 'b'] := by
  have hnb : '\n' ∉ List.replicate 4097 'b' := by
    intro hm
    rw [List.mem_replicate] at hm
    exact absurd hm.2 (by decide)
  have hna : '\n' ∉ ['a'] := by decide
  have hsp : pySplitNL msgLongLine = [['a'], List.replicate 4097 'b'] := by
    have hshape : msgLongLine = ['a'] ++ '\n' :: List.replicate 4097 'b' := rfl
    rw [hshape, pySplitNL_append _ _ hna, pySplitNL_no_nl _ hnb]
  have hlen : ¬ msgLongLine.length ≤ 4096 := by
    have hl := msgLongLine_length
    omega
  have hfit1 : ([] : List Char).length + (['a'] : List Char).length + 1
      ≤ 4096 := by
    rw [List.length_nil, List.length_singleton]
    omega
  have hfit2 : ¬ (((['a'] : List Char) ++ ['\n']).length
      + (List.replicate 4097 'b').length + 1 ≤ 4096) := by
    rw [List.length_append, List.length_singleton, List.length_singleton,
      List.length_replicate]
    omega
  unfold split_message
  rw [if_neg hlen, hsp, split_core_cons, if_pos hfit1, List.nil_append,
    split_core_cons, if_neg hfit2, if_neg (append_singleton_ne_nil _ _),
    rstrip_append_nl, split_core_nil, if_neg (append_singleton_ne_nil _ _),
    rstrip_append_nl, rstrip_replicate 4097 'b' (by decide)]
  have hra : rstrip ['a'] = ['a'] := by decide
  rw [hra]

/-- C5: on the 4099-character message whose second line has 4097 characters,
the splitting path is taken and produces a chunk longer than the 4096
channel limit (the over-long line is flushed whole because the accumulated
part was non-empty), and the dispatcher sends exactly these oversized chunks
in list order. -/
theorem c5_oversized_chunk :
    msgLongLine.length = 4099
    ∧ send_sequence msgLongLine = split_message msgLongLine
    ∧ ∃ p, p ∈ split_message msgLongLine ∧ 4096 < p.length := by
  have hl := msgLongLine_length
  refine ⟨hl, ?_, ?_⟩
  · unfold send_sequence split_message
    rw [if_neg (by omega), if_neg (by omega)]
  · refine ⟨List.replicate 4097 'b', ?_, ?_⟩
    · rw [split_message_msgLongLine]
      exact List.mem_cons_of_mem _ (List.mem_cons_self _ _)
    · rw [List.length_replicate]
      omega
